import Mathlib

/-!
Verification of the `InertiaForm` component (src/src/InertiaForm.js).

We shallow-embed the form's data model and operations. JavaScript values
that can appear as form field data are modelled by the inductive `Value`
(undefined, null, strings, numbers, booleans, file blobs, plain objects,
arrays). JavaScript objects holding field data are modelled as insertion
ordered association lists with the assignment/lookup semantics of JS
property access (`setKey` / `getKey`, lookup of an absent key yielding
`undefined`).

The helpers `reservedFieldNames`, `isFile` and `merge` come from the
repository's `./util` module, whose source is not part of the snapshot;
they are modelled from the spec and marked as such.
-/

/-- A JavaScript value as it can appear in a form field: `undefined`,
`null`, a string, a number, a boolean, a file/blob, a plain object
(insertion-ordered key/value pairs) or an array. -/
inductive Value where
  | undefined : Value
  | null : Value
  | str : String → Value
  | num : Int → Value
  | bool : Bool → Value
  | file : String → Value
  | obj : List (String × Value) → Value
  | arr : List Value → Value
  deriving Repr

/-- Structural induction over `Value` that exposes the membership-indexed
induction hypotheses for the nested lists. -/
theorem Value.deepInduction {P : Value → Prop}
    (hundefined : P .undefined) (hnull : P .null) (hstr : ∀ s, P (.str s))
    (hnum : ∀ n, P (.num n)) (hbool : ∀ b, P (.bool b))
    (hfile : ∀ s, P (.file s))
    (hobj : ∀ kvs, (∀ p ∈ kvs, P p.2) → P (.obj kvs))
    (harr : ∀ es, (∀ e ∈ es, P e) → P (.arr es)) :
    ∀ v, P v
  | .undefined => hundefined
  | .null => hnull
  | .str s => hstr s
  | .num n => hnum n
  | .bool b => hbool b
  | .file s => hfile s
  | .obj kvs => hobj kvs (fun p hp =>
      have : sizeOf p.2 < 1 + sizeOf kvs := by
        have h1 : sizeOf p < sizeOf kvs := List.sizeOf_lt_of_mem hp
        obtain ⟨a, b⟩ := p
        simp only [Prod.mk.sizeOf_spec] at *
        omega
      Value.deepInduction hundefined hnull hstr hnum hbool hfile hobj harr p.2)
  | .arr es => harr es (fun e he =>
      have : sizeOf e < 1 + sizeOf es := by
        have h1 : sizeOf e < sizeOf es := List.sizeOf_lt_of_mem he
        omega
      Value.deepInduction hundefined hnull hstr hnum hbool hfile hobj harr e)
termination_by v => sizeOf v

mutual

/-- Boolean structural equality of `Value`s (JS value equality on the
modelled values). -/
def Value.beq : Value → Value → Bool
  | .undefined, .undefined => true
  | .null, .null => true
  | .str a, .str b => a == b
  | .num a, .num b => a == b
  | .bool a, .bool b => a == b
  | .file a, .file b => a == b
  | .obj a, .obj b => Value.beqPairs a b
  | .arr a, .arr b => Value.beqList a b
  | _, _ => false

/-- Equality of key/value pair lists, pointwise. -/
def Value.beqPairs : List (String × Value) → List (String × Value) → Bool
  | [], [] => true
  | (k1, v1) :: r1, (k2, v2) :: r2 =>
      k1 == k2 && Value.beq v1 v2 && Value.beqPairs r1 r2
  | _, _ => false

/-- Equality of value lists, pointwise. -/
def Value.beqList : List Value → List Value → Bool
  | [], [] => true
  | v1 :: r1, v2 :: r2 => Value.beq v1 v2 && Value.beqList r1 r2
  | _, _ => false

end

theorem Value.beqPairs_iff (kvs : List (String × Value))
    (ih : ∀ p ∈ kvs, ∀ b, Value.beq p.2 b = true ↔ p.2 = b) :
    ∀ l, Value.beqPairs kvs l = true ↔ kvs = l := by
  induction kvs with
  | nil => intro l; cases l <;> simp [Value.beqPairs]
  | cons p r ihr =>
    intro l
    obtain ⟨k1, v1⟩ := p
    cases l with
    | nil => simp [Value.beqPairs]
    | cons q r2 =>
      obtain ⟨k2, v2⟩ := q
      have h1 := ih (k1, v1) (by simp)
      have h2 : ∀ l, Value.beqPairs r l = true ↔ r = l :=
        ihr (fun p hp => ih p (by simp [hp]))
      simp [Value.beqPairs, h1, h2, Bool.and_assoc, Bool.and_eq_true,
        beq_iff_eq]
      tauto

theorem Value.beqList_iff (es : List Value)
    (ih : ∀ e ∈ es, ∀ b, Value.beq e b = true ↔ e = b) :
    ∀ l, Value.beqList es l = true ↔ es = l := by
  induction es with
  | nil => intro l; cases l <;> simp [Value.beqList]
  | cons e r ihr =>
    intro l
    cases l with
    | nil => simp [Value.beqList]
    | cons e2 r2 =>
      have h1 := ih e (by simp)
      have h2 : ∀ l, Value.beqList r l = true ↔ r = l :=
        ihr (fun e he => ih e (by simp [he]))
      simp [Value.beqList, h1, h2]

theorem Value.beq_iff_eq (a b : Value) : Value.beq a b = true ↔ a = b := by
  induction a using Value.deepInduction generalizing b with
  | hundefined => cases b <;> simp [Value.beq]
  | hnull => cases b <;> simp [Value.beq]
  | hstr s => cases b <;> simp [Value.beq]
  | hnum n => cases b <;> simp [Value.beq]
  | hbool x => cases b <;> simp [Value.beq]
  | hfile s => cases b <;> simp [Value.beq]
  | hobj kvs ih =>
    cases b <;> simp [Value.beq]
    exact Value.beqPairs_iff kvs ih _
  | harr es ih =>
    cases b <;> simp [Value.beq]
    exact Value.beqList_iff es ih _

instance : DecidableEq Value := fun a b =>
  decidable_of_iff (Value.beq a b = true) (Value.beq_iff_eq a b)

/-- JS property read `o[k]`: the first binding of `k`, or `undefined`. -/
def getKey : List (String × Value) → String → Option Value
  | [], _ => none
  | (k0, v0) :: rest, k => if k0 = k then some v0 else getKey rest k

/-- JS property read as a `Value` (`undefined` when the key is absent). -/
def getProp (kvs : List (String × Value)) (k : String) : Value :=
  match getKey kvs k with
  | some v => v
  | none => .undefined

/-- JS property write `o[k] = v`: overwrite in place, else append. -/
def setKey : List (String × Value) → String → Value → List (String × Value)
  | [], k, v => [(k, v)]
  | (k0, v0) :: rest, k, v =>
      if k0 = k then (k, v) :: rest else (k0, v0) :: setKey rest k v

/-- Whether the object has the key (`k in o`). -/
def containsKey (kvs : List (String × Value)) (k : String) : Bool :=
  (getKey kvs k).isSome

/-- Modelled from the spec: `merge` from the missing `./util` module copies
every key/value pair of `source` into `target`, in iteration order. -/
def mergeInto (target source : List (String × Value)) :
    List (String × Value) :=
  source.foldl (fun acc kv => setKey acc kv.1 kv.2) target

/-- Modelled from the spec: `reservedFieldNames` from the missing `./util`
module. The spec reserves the bookkeeping fields `processing`,
`successful`, `recentlySuccessful`, `isDirty`, `initial` and the internal
option/collaborator slots. -/
def reservedFieldNames : List String :=
  ["processing", "successful", "recentlySuccessful", "isDirty", "initial",
   "__options", "__inertia", "__page"]

/-- Modelled from the spec: `isFile` from the missing `./util` module, the
file/blob predicate; true exactly on file-like blob leaves. -/
def isFile : Value → Bool
  | .file _ => true
  | _ => false

/-- The three submission options with their defaults. -/
structure Options where
  bag : String
  resetOnSuccess : Bool
  setInitialOnSuccess : Bool
  deriving Repr, DecidableEq

/-- The `options` argument to `withOptions`: each key may be present or
absent (`hasOwnProperty`). -/
structure OptionsArg where
  bag : Option String
  resetOnSuccess : Option Bool
  setInitialOnSuccess : Option Bool
  deriving Repr, DecidableEq

/-- The `options` argument with no keys set. -/
def noOptions : OptionsArg := ⟨none, none, none⟩

/-- The form state: current field values, the `initial` snapshot, the four
bookkeeping flags, the options, and the delays (ms) of the
`recentlySuccessful`-clearing steps scheduled via `setTimeout`. -/
structure Form where
  fields : List (String × Value)
  initial : List (String × Value)
  processing : Bool
  successful : Bool
  recentlySuccessful : Bool
  isDirty : Bool
  options : Options
  timers : List Nat
  deriving Repr, DecidableEq

/-- The Proxy `set` trap for a data-field write `form[k] = v`: store the
value; if `k` is not reserved and `v` differs from the stored initial
value for `k`, set `isDirty`. -/
def setField (f : Form) (k : String) (v : Value) : Form :=
  let f1 := { f with fields := setKey f.fields k v }
  if reservedFieldNames.contains k = false ∧ getProp f.initial k ≠ v then
    { f1 with isDirty := true }
  else f1

/-- A sequence of field writes through the proxy. -/
def applyWrites (f : Form) (ws : List (String × Value)) : Form :=
  ws.foldl (fun acc kv => setField acc kv.1 kv.2) f

/-- Modelled from the spec: `guardAgainstReservedFieldName` from the
missing `./util` module throws when the field name is reserved. -/
def guardAgainstReservedFieldName (field : String) : Except String Unit :=
  if reservedFieldNames.contains field then
    .error (field ++ " is a reserved field name")
  else .ok ()

/-- `setInitialValues(values)`: `this.initial = {}; merge(this.initial,
values)`. -/
def setInitialValues (f : Form) (values : List (String × Value)) : Form :=
  { f with initial := mergeInto [] values }

/-- The assignment loop of `withData`: for each field, guard against a
reserved name, then assign through the proxy. -/
def withDataLoop (f : Form) : List (String × Value) → Except String Form
  | [] => .ok f
  | (k, v) :: rest => do
      let _ ← guardAgainstReservedFieldName k
      withDataLoop (setField f k v) rest

/-- `withData(data)` for a mapping argument: snapshot `initial`, clear
`processing` and `successful`, assign each field, clear `isDirty`. -/
def withData (f : Form) (data : List (String × Value)) :
    Except String Form := do
  let f1 := setInitialValues f data
  let f2 := { f1 with processing := false, successful := false }
  let f3 ← withDataLoop f2 data
  .ok { f3 with isDirty := false }

/-- `withOptions(options)`: reinitialize `__options` to the defaults, then
apply whichever of the three keys the argument owns. -/
def withOptions (f : Form) (o : OptionsArg) : Form :=
  let base : Options :=
    { bag := "default", resetOnSuccess := true, setInitialOnSuccess := false }
  let b1 := match o.bag with
    | some s => { base with bag := s }
    | none => base
  let b2 := match o.resetOnSuccess with
    | some x => { b1 with resetOnSuccess := x }
    | none => b1
  let b3 := match o.setInitialOnSuccess with
    | some x => { b2 with setInitialOnSuccess := x }
    | none => b2
  { f with options := b3 }

/-- The constructor `new InertiaForm(data, options)` (also
`create(data).withOptions(options)`): fresh flags, `withData`, then
`withOptions`. -/
def createForm (data : List (String × Value)) (o : OptionsArg) :
    Except String Form := do
  let empty : Form :=
    { fields := [], initial := [], processing := false, successful := false,
      recentlySuccessful := false, isDirty := false,
      options := { bag := "default", resetOnSuccess := true,
                   setInitialOnSuccess := false },
      timers := [] }
  let f1 ← withData empty data
  .ok (withOptions f1 o)

/-- `data()`: start from `{ _error_bag: bag }`, then copy each field of
`initial` with its current value. -/
def dataOf (f : Form) : List (String × Value) :=
  f.initial.foldl (fun acc kv => setKey acc kv.1 (getProp f.fields kv.1))
    [("_error_bag", .str f.options.bag)]

/-- `reset()`: `merge(this, this.initial); this.isDirty = false`. -/
def reset (f : Form) : Form :=
  { f with fields := mergeInto f.fields f.initial, isDirty := false }

mutual

/-- `hasFilesDeep(object)`: `null` is file-free; an object (arrays
included, since JS arrays have `typeof 'object'`) first recurses into
every own enumerable property and answers true on any hit; an array that
the first loop did not settle returns the recursion on its first element;
otherwise the value itself is tested with `isFile`. -/
def hasFilesDeep : Value → Bool
  | .null => false
  | .obj kvs =>
      if anyPairHasFiles kvs then true
      else isFile (.obj kvs)
  | .arr es =>
      if anyHasFiles es then true
      else
        match es with
        | [] => isFile (.arr [])
        | e :: _ => hasFilesDeep e
  | v => isFile v

/-- The `for ... in` loop of `hasFilesDeep` over an object's values. -/
def anyPairHasFiles : List (String × Value) → Bool
  | [] => false
  | (_, v) :: rest => hasFilesDeep v || anyPairHasFiles rest

/-- The `for ... in` loop of `hasFilesDeep` over an array's elements. -/
def anyHasFiles : List Value → Bool
  | [] => false
  | v :: rest => hasFilesDeep v || anyHasFiles rest

end

/-- `hasFiles()`: some field declared in `initial` whose current value
contains a file. -/
def hasFiles (f : Form) : Bool :=
  f.initial.any (fun kv => hasFilesDeep (getProp f.fields kv.1))

mutual

/-- Restated from the spec's words: a value "has files" iff some leaf,
reached recursively through nested mappings and sequences with `null`
treated as file-free, satisfies the file predicate. -/
def hasFileLeaf : Value → Bool
  | .null => false
  | .obj kvs => anyPairLeaf kvs
  | .arr es => anyLeaf es
  | v => isFile v

/-- Leaf search over an object's values. -/
def anyPairLeaf : List (String × Value) → Bool
  | [] => false
  | (_, v) :: rest => hasFileLeaf v || anyPairLeaf rest

/-- Leaf search over an array's elements. -/
def anyLeaf : List Value → Bool
  | [] => false
  | v :: rest => hasFileLeaf v || anyLeaf rest

end

/-- The current page: its `errorBags` mapping, bag name → field name →
messages. -/
structure Page where
  errorBags : List (String × List (String × List String))
  deriving Repr, DecidableEq

/-- Bag lookup `page.errorBags[name]`. -/
def lookupBag (page : Page) (name : String) :
    Option (List (String × List String)) :=
  match page.errorBags.find? (fun kv => kv.1 = name) with
  | some kv => some kv.2
  | none => none

/-- Field lookup within a bag. -/
def lookupField (bag : List (String × List String)) (field : String) :
    Option (List String) :=
  match bag.find? (fun kv => kv.1 = field) with
  | some kv => some kv.2
  | none => none

/-- `hasErrors()`: the configured bag exists on the page and has at least
one key. -/
def hasErrors (f : Form) (page : Page) : Bool :=
  match lookupBag page f.options.bag with
  | some bag => bag.length > 0
  | none => false

/-- `error(field)`: the first message for the field in the configured bag,
or `undefined` when there are no errors, the field is absent, or its
message list is empty. -/
def errorAt (f : Form) (page : Page) (field : String) : Option String :=
  if hasErrors f page = false then none
  else
    match lookupBag page f.options.bag with
    | none => none
    | some bag =>
        match lookupField bag field with
        | none => none
        | some msgs =>
            match msgs with
            | [] => none
            | m :: _ => some m

/-- `errors(field)` with a field: the field's message list when
`error(field)` is truthy (a JS string is truthy iff non-empty), else an
empty list. -/
def errorsField (f : Form) (page : Page) (field : String) : List String :=
  let truthy : Bool := match errorAt f page field with
    | some m => m != ""
    | none => false
  if truthy then
    match lookupBag page f.options.bag with
    | some bag => (lookupField bag field).getD []
    | none => []
  else []

/-- `errors()` with no field: flatten the configured bag's message lists
in bag iteration order when `hasErrors()`, else an empty list. -/
def errorsAll (f : Form) (page : Page) : List String :=
  if hasErrors f page then
    match lookupBag page f.options.bag with
    | some bag => bag.foldl (fun a kv => a ++ kv.2) []
    | none => []
  else []

/-- The valid request types accepted by `submit`. -/
def requestTypes : List String := ["get", "post", "put", "patch", "delete"]

/-- `__validateRequestType(requestType)`: throw unless the type is one of
the five valid ones. -/
def validateRequestType (rt : String) : Except String Unit :=
  if requestTypes.contains rt then .ok ()
  else .error (rt ++ " is not a valid request type")

/-- The network call handed to the navigation client: method, url, the
payload (`none` for `delete`, which sends only url and config) and
whether it is encoded as multipart form data. -/
structure Dispatch where
  method : String
  url : String
  payload : Option (List (String × Value))
  multipart : Bool
  deriving Repr, DecidableEq

/-- `submit(requestType, url, options)` up to the dispatch of the network
call: validate the request type (throwing before any state change), set
`processing`/`successful`, then — once the CAPTCHA gate has produced
`token` — merge the token into `data()` and dispatch. -/
def submit (f : Form) (rt url token : String) :
    Except String (Form × Dispatch) := do
  let _ ← validateRequestType rt
  let f1 := { f with processing := true, successful := false }
  let d := setKey (dataOf f1) "token" (.str token)
  if rt = "delete" then
    .ok (f1, { method := rt, url := url, payload := none, multipart := false })
  else
    .ok (f1, { method := rt, url := url, payload := some d,
               multipart := hasFiles f1 })

/-- `onSuccess()`: set the success flags, schedule the 2000 ms
`recentlySuccessful` reset, then apply the `resetOnSuccess` /
`setInitialOnSuccess` policy. -/
def onSuccessHook (f : Form) : Form :=
  let f1 := { f with successful := true, recentlySuccessful := true,
                     timers := f.timers ++ [2000] }
  if f1.options.resetOnSuccess then reset f1
  else if f1.options.setInitialOnSuccess then
    let d := (dataOf f1).filter (fun kv => kv.1 ≠ "_error_bag")
    { setInitialValues f1 d with isDirty := false }
  else f1

/-- `onFail()`: clear both success flags. -/
def onFailHook (f : Form) : Form :=
  { f with successful := false, recentlySuccessful := false }

/-- The completion callback installed by `submit`: clear `processing`,
then branch on `hasErrors()` against the freshly delivered page. -/
def handleCompletion (f : Form) (page : Page) : Form :=
  let f1 := { f with processing := false }
  if hasErrors f1 page then onFailHook f1 else onSuccessHook f1

/-- Firing one scheduled `setTimeout` step: it sets `recentlySuccessful`
back to false and touches nothing else. -/
def fireScheduled (f : Form) : Form :=
  { f with recentlySuccessful := false }

/-- Well-formedness of a form as produced by the constructor: the
`initial` snapshot, being a JS object, has no duplicate keys. -/
def Form.wf (f : Form) : Prop := (f.initial.map Prod.fst).Nodup

instance (f : Form) : Decidable (Form.wf f) :=
  inferInstanceAs (Decidable ((f.initial.map Prod.fst).Nodup))

/-! ## Association-list lemmas -/

theorem getKey_setKey_self (t : List (String × Value)) (k : String)
    (v : Value) : getKey (setKey t k v) k = some v := by
  induction t with
  | nil => simp [setKey, getKey]
  | cons p rest ih =>
    obtain ⟨k0, v0⟩ := p
    by_cases h : k0 = k
    · simp [setKey, h, getKey]
    · simp [setKey, h, getKey, ih]

theorem getKey_setKey_ne (t : List (String × Value)) (k k' : String)
    (v : Value) (h : k' ≠ k) : getKey (setKey t k v) k' = getKey t k' := by
  induction t with
  | nil =>
    simp only [setKey, getKey]
    rw [if_neg (fun hh => h hh.symm)]
  | cons p rest ih =>
    obtain ⟨k0, v0⟩ := p
    by_cases h0 : k0 = k
    · subst h0
      simp only [setKey, if_pos rfl, getKey]
      rw [if_neg (fun hh => h hh.symm), if_neg (fun hh => h hh.symm)]
    · simp only [setKey, if_neg h0, getKey]
      by_cases h1 : k0 = k'
      · rw [if_pos h1, if_pos h1]
      · rw [if_neg h1, if_neg h1, ih]

theorem getKey_mergeInto_of_not_mem (t s : List (String × Value))
    (k : String) (h : k ∉ s.map Prod.fst) :
    getKey (mergeInto t s) k = getKey t k := by
  induction s generalizing t with
  | nil => simp [mergeInto]
  | cons p rest ih =>
    obtain ⟨k0, v0⟩ := p
    simp only [List.map_cons, List.mem_cons, not_or] at h
    have step : mergeInto t ((k0, v0) :: rest) = mergeInto (setKey t k0 v0) rest := by
      simp [mergeInto]
    rw [step, ih _ h.2, getKey_setKey_ne _ _ _ _ h.1]

theorem getKey_mergeInto_of_mem (t s : List (String × Value)) (k : String)
    (v : Value) (hnd : (s.map Prod.fst).Nodup) (h : getKey s k = some v) :
    getKey (mergeInto t s) k = some v := by
  induction s generalizing t with
  | nil => simp [getKey] at h
  | cons p rest ih =>
    obtain ⟨k0, v0⟩ := p
    simp only [List.map_cons, List.nodup_cons] at hnd
    have step : mergeInto t ((k0, v0) :: rest) = mergeInto (setKey t k0 v0) rest := by
      simp [mergeInto]
    rw [step]
    by_cases hk : k0 = k
    · subst hk
      simp only [getKey, eq_self_iff_true, if_true, Option.some.injEq] at h
      rw [getKey_mergeInto_of_not_mem _ _ _ hnd.1, getKey_setKey_self, h]
    · simp only [getKey, if_neg hk] at h
      exact ih _ hnd.2 h

theorem containsKey_iff_mem (l : List (String × Value)) (k : String) :
    containsKey l k = true ↔ k ∈ l.map Prod.fst := by
  induction l with
  | nil => simp [containsKey, getKey]
  | cons p rest ih =>
    obtain ⟨k0, v0⟩ := p
    by_cases h : k0 = k
    · subst h
      simp [containsKey, getKey]
    · simp only [containsKey, getKey, if_neg h, List.map_cons, List.mem_cons]
      simp only [containsKey] at ih
      rw [ih]
      constructor
      · exact fun hh => Or.inr hh
      · intro hh
        rcases hh with hh | hh
        · exact absurd hh.symm h
        · exact hh

/-! ## `setField` lemmas -/

theorem setField_initial (f : Form) (k : String) (v : Value) :
    (setField f k v).initial = f.initial := by
  unfold setField
  split <;> rfl

theorem setField_isDirty_mono (f : Form) (k : String) (v : Value)
    (h : f.isDirty = true) : (setField f k v).isDirty = true := by
  unfold setField
  split <;> simp [h]

theorem applyWrites_isDirty_mono (ws : List (String × Value)) (f : Form)
    (h : f.isDirty = true) : (applyWrites f ws).isDirty = true := by
  induction ws generalizing f with
  | nil => simpa [applyWrites]
  | cons w rest ih =>
    have step : applyWrites f (w :: rest) = applyWrites (setField f w.1 w.2) rest := by
      simp [applyWrites]
    rw [step]
    exact ih _ (setField_isDirty_mono _ _ _ h)

/-! ## `hasFilesDeep` agrees with the spec's leaf search -/

theorem anyPairHasFiles_eq (kvs : List (String × Value))
    (ih : ∀ p ∈ kvs, hasFilesDeep p.2 = hasFileLeaf p.2) :
    anyPairHasFiles kvs = anyPairLeaf kvs := by
  induction kvs with
  | nil => simp [anyPairHasFiles, anyPairLeaf]
  | cons p rest ihr =>
    obtain ⟨k0, v0⟩ := p
    have h1 := ih (k0, v0) (by simp)
    have h2 := ihr (fun q hq => ih q (by simp [hq]))
    simp [anyPairHasFiles, anyPairLeaf, h1, h2]

theorem anyHasFiles_eq (es : List Value)
    (ih : ∀ e ∈ es, hasFilesDeep e = hasFileLeaf e) :
    anyHasFiles es = anyLeaf es := by
  induction es with
  | nil => simp [anyHasFiles, anyLeaf]
  | cons e rest ihr =>
    have h1 := ih e (by simp)
    have h2 := ihr (fun q hq => ih q (by simp [hq]))
    simp [anyHasFiles, anyLeaf, h1, h2]

theorem anyLeaf_eq_any (es : List Value) :
    anyLeaf es = es.any hasFileLeaf := by
  induction es with
  | nil => simp [anyLeaf]
  | cons e rest ih => simp [anyLeaf, ih]

theorem hasFilesDeep_eq_hasFileLeaf (v : Value) :
    hasFilesDeep v = hasFileLeaf v := by
  induction v using Value.deepInduction with
  | hundefined => simp [hasFilesDeep, hasFileLeaf, isFile]
  | hnull => simp [hasFilesDeep, hasFileLeaf]
  | hstr s => simp [hasFilesDeep, hasFileLeaf, isFile]
  | hnum n => simp [hasFilesDeep, hasFileLeaf, isFile]
  | hbool b => simp [hasFilesDeep, hasFileLeaf, isFile]
  | hfile s => simp [hasFilesDeep, hasFileLeaf, isFile]
  | hobj kvs ih =>
    rw [hasFilesDeep.eq_2, hasFileLeaf.eq_2, anyPairHasFiles_eq kvs ih]
    cases h : anyPairLeaf kvs <;> simp [h, isFile]
  | harr es ih =>
    cases es with
    | nil =>
      rw [hasFilesDeep.eq_3, hasFileLeaf.eq_3]
      simp [anyHasFiles, anyLeaf, isFile]
    | cons e rest =>
      rw [hasFilesDeep.eq_4, hasFileLeaf.eq_3,
        anyHasFiles_eq _ ih]
      cases h : anyLeaf (e :: rest) with
      | true => simp
      | false =>
        simp only [Bool.false_eq_true, if_false]
        rw [ih e (by simp)]
        rw [anyLeaf_eq_any] at h
        simp only [List.any_cons, Bool.or_eq_false_iff] at h
        simp [h.1]

/-! ## `data()` characterization -/

theorem getKey_dataOf_fold (fields : List (String × Value))
    (init acc : List (String × Value)) (k : String) :
    getKey (init.foldl (fun a kv => setKey a kv.1 (getProp fields kv.1)) acc) k =
      if k ∈ init.map Prod.fst then some (getProp fields k)
      else getKey acc k := by
  induction init generalizing acc with
  | nil => simp
  | cons p rest ih =>
    obtain ⟨k0, v0⟩ := p
    simp only [List.foldl_cons, List.map_cons, List.mem_cons]
    rw [ih]
    by_cases hmem : k ∈ rest.map Prod.fst
    · rw [if_pos hmem, if_pos (Or.inr hmem)]
    · rw [if_neg hmem]
      by_cases hk : k = k0
      · subst hk
        rw [if_pos (Or.inl rfl), getKey_setKey_self]
      · rw [if_neg (by tauto), getKey_setKey_ne _ _ _ _ hk]

/-! ## Claim theorems -/

/-- C1: for every form and every write of a value to a non-reserved field,
if the written value differs from that field's stored initial value then
`isDirty` becomes true, and it remains true under every further sequence
of field writes; no field write clears it. -/
theorem C1_dirty_write_persists (f : Form) (k : String) (v : Value)
    (hk : reservedFieldNames.contains k = false)
    (hne : getProp f.initial k ≠ v) (ws : List (String × Value)) :
    (setField f k v).isDirty = true ∧
    (applyWrites (setField f k v) ws).isDirty = true := by
  have h1 : (setField f k v).isDirty = true := by
    simp only [setField]
    rw [if_pos ⟨hk, hne⟩]
  exact ⟨h1, applyWrites_isDirty_mono ws _ h1⟩

/-- C1 witness: a concrete dirty-making write followed by another write. -/
theorem C1_dirty_write_persists_witness :
    (applyWrites
        (setField
          { fields := [("name", .str "a")], initial := [("name", .str "a")],
            processing := false, successful := false,
            recentlySuccessful := false, isDirty := false,
            options := { bag := "default", resetOnSuccess := true,
                         setInitialOnSuccess := false },
            timers := [] }
          "name" (.str "z"))
        [("name", .str "q")]).isDirty = true :=
  (C1_dirty_write_persists _ "name" (.str "z") (by decide) (by decide)
    [("name", .str "q")]).2

/-- C2: `hasFiles()` is true iff some field listed in `initial` has,
anywhere in its current value (recursing through nested mappings and
sequences, `null` file-free), a leaf satisfying the file predicate; in
particular a file nested inside a later element of a sequence is
detected. -/
theorem C2_hasFiles_iff_file_leaf (f : Form) :
    (hasFiles f = true ↔
      ∃ kv ∈ f.initial, hasFileLeaf (getProp f.fields kv.1) = true) ∧
    hasFilesDeep (.obj [("a", .obj [("b", .arr [.str "x", .file "f"])])])
      = true := by
  constructor
  · unfold hasFiles
    rw [List.any_eq_true]
    constructor
    · rintro ⟨kv, hmem, hkv⟩
      exact ⟨kv, hmem, by rw [← hasFilesDeep_eq_hasFileLeaf]; exact hkv⟩
    · rintro ⟨kv, hmem, hkv⟩
      exact ⟨kv, hmem, by rw [hasFilesDeep_eq_hasFileLeaf]; exact hkv⟩
  · decide

/-- C5: `submit` with a request type outside the five valid ones fails
with the configuration error, producing neither a dispatch nor any state
change. -/
theorem C5_invalid_request_type (f : Form) (rt url token : String)
    (h : requestTypes.contains rt = false) :
    submit f rt url token = .error (rt ++ " is not a valid request type") := by
  have h2 : rt ∉ requestTypes := by simpa using h
  simp [submit, validateRequestType, h2, Bind.bind, Except.bind]

/-- C5 witness: `submit` with the method `head` throws. -/
theorem C5_invalid_request_type_witness :
    submit
      { fields := [("name", .str "a")], initial := [("name", .str "a")],
        processing := false, successful := false, recentlySuccessful := false,
        isDirty := false,
        options := { bag := "default", resetOnSuccess := true,
                     setInitialOnSuccess := false },
        timers := [] }
      "head" "/users" "tok" = .error "head is not a valid request type" :=
  C5_invalid_request_type _ "head" "/users" "tok" (by decide)

/-- C6: `reset()` overwrites every field that has a stored initial value
with that initial value and clears `isDirty`. -/
theorem C6_reset_restores_initial (f : Form) (hwf : Form.wf f) :
    (∀ k v, getKey f.initial k = some v →
      getKey (reset f).fields k = some v) ∧
    (reset f).isDirty = false := by
  constructor
  · intro k v h
    exact getKey_mergeInto_of_mem _ _ _ _ hwf h
  · rfl

/-- C6 witness: a concrete mutated form is restored by `reset`. -/
theorem C6_reset_restores_initial_witness :
    getKey
      (reset
        (setField
          { fields := [("name", .str "a")], initial := [("name", .str "a")],
            processing := false, successful := false,
            recentlySuccessful := false, isDirty := false,
            options := { bag := "default", resetOnSuccess := true,
                         setInitialOnSuccess := false },
            timers := [] }
          "name" (.str "z"))).fields "name" = some (.str "a") ∧
    (reset
      (setField
        { fields := [("name", .str "a")], initial := [("name", .str "a")],
          processing := false, successful := false,
          recentlySuccessful := false, isDirty := false,
          options := { bag := "default", resetOnSuccess := true,
                       setInitialOnSuccess := false },
          timers := [] }
        "name" (.str "z"))).isDirty = false :=
  ⟨(C6_reset_restores_initial _ (by decide)).1 "name" (.str "a") (by decide),
   (C6_reset_restores_initial _ (by decide)).2⟩

/-- C10: `withOptions` first reinitializes all three options to their
defaults and then applies only the keys present in the argument, so the
resulting options depend only on the argument: a second call with a
partial object discards the options set by an earlier call. -/
theorem C10_withOptions_resets_then_applies (f : Form) (o1 o2 : OptionsArg) :
    (withOptions (withOptions f o1) o2).options = (withOptions f o2).options ∧
    (withOptions f o2).options =
      { bag := o2.bag.getD "default",
        resetOnSuccess := o2.resetOnSuccess.getD true,
        setInitialOnSuccess := o2.setInitialOnSuccess.getD false } := by
  constructor
  · rfl
  · simp only [withOptions]
    obtain ⟨b, r, s⟩ := o2
    cases b <;> cases r <;> cases s <;> rfl

/-- A form in mid-submission state used to instantiate the completion
theorems. -/
def sampleForm : Form :=
  { fields := [("name", .str "a"), ("email", .str "b")],
    initial := [("name", .str "a"), ("email", .str "b")],
    processing := true, successful := false, recentlySuccessful := false,
    isDirty := true,
    options := { bag := "default", resetOnSuccess := true,
                 setInitialOnSuccess := false },
    timers := [] }

/-- A page whose `errorBags` lacks the bag named `default`. -/
def missingBagPage : Page := { errorBags := [("other", [("x", ["m"])])] }

/-- A page whose `default` bag is non-empty. -/
def failPage : Page := { errorBags := [("default", [("email", ["Invalid"])])] }

/-- C3: a completed submission whose page has an absent or empty error bag
under the configured bag name ends with `successful`, `processing` cleared
and `recentlySuccessful` set, and — with `resetOnSuccess`, the default —
every initial-declared field restored to its pre-submission initial value
and `isDirty` cleared. -/
theorem C3_success_resets (f : Form) (page : Page)
    (hwf : Form.wf f) (hopt : f.options.resetOnSuccess = true)
    (hbag : lookupBag page f.options.bag = none ∨
            lookupBag page f.options.bag = some []) :
    (handleCompletion f page).successful = true ∧
    (handleCompletion f page).processing = false ∧
    (handleCompletion f page).recentlySuccessful = true ∧
    (handleCompletion f page).isDirty = false ∧
    (handleCompletion f page).initial = f.initial ∧
    ∀ k v, getKey f.initial k = some v →
      getKey (handleCompletion f page).fields k = some v := by
  have herr : hasErrors { f with processing := false } page = false := by
    unfold hasErrors
    rw [show ({ f with processing := false } : Form).options = f.options
      from rfl]
    rcases hbag with h | h <;> rw [h]
    rfl
  have hstep : handleCompletion f page =
      reset { f with processing := false, successful := true,
                     recentlySuccessful := true,
                     timers := f.timers ++ [2000] } := by
    simp only [handleCompletion, herr, Bool.false_eq_true, if_false,
      onSuccessHook, hopt, if_true]
  rw [hstep]
  refine ⟨rfl, rfl, rfl, rfl, rfl, ?_⟩
  intro k v h
  exact getKey_mergeInto_of_mem _ _ _ _ hwf h

/-- C3 witness: a concrete successful completion restores the fields. -/
theorem C3_success_resets_witness :
    (handleCompletion sampleForm missingBagPage).successful = true ∧
    (handleCompletion sampleForm missingBagPage).processing = false ∧
    (handleCompletion sampleForm missingBagPage).recentlySuccessful = true ∧
    (handleCompletion sampleForm missingBagPage).isDirty = false ∧
    getKey (handleCompletion sampleForm missingBagPage).fields "name" =
      some (.str "a") := by
  obtain ⟨h1, h2, h3, h4, _, h6⟩ :=
    C3_success_resets sampleForm missingBagPage (by decide) (by decide)
      (Or.inl (by decide))
  exact ⟨h1, h2, h3, h4, h6 "name" (.str "a") (by decide)⟩

/-- C4: a completed submission whose page has a non-empty error bag under
the configured bag name ends failed — `successful` and
`recentlySuccessful` false, `processing` false — and leaves the fields,
the `initial` snapshot and `isDirty` untouched. -/
theorem C4_fail_preserves_fields (f : Form) (page : Page)
    (bag : List (String × List String))
    (hbag : lookupBag page f.options.bag = some bag) (hne : bag ≠ []) :
    (handleCompletion f page).successful = false ∧
    (handleCompletion f page).recentlySuccessful = false ∧
    (handleCompletion f page).processing = false ∧
    (handleCompletion f page).fields = f.fields ∧
    (handleCompletion f page).initial = f.initial ∧
    (handleCompletion f page).isDirty = f.isDirty := by
  have herr : hasErrors { f with processing := false } page = true := by
    unfold hasErrors
    rw [show ({ f with processing := false } : Form).options = f.options
      from rfl, hbag]
    simpa using List.length_pos.mpr hne
  have hstep : handleCompletion f page =
      { f with processing := false, successful := false,
               recentlySuccessful := false } := by
    simp only [handleCompletion, herr, if_true, onFailHook]
  rw [hstep]
  exact ⟨rfl, rfl, rfl, rfl, rfl, rfl⟩

/-- C4 witness: a concrete failed completion leaves the data alone. -/
theorem C4_fail_preserves_fields_witness :
    (handleCompletion sampleForm failPage).successful = false ∧
    (handleCompletion sampleForm failPage).recentlySuccessful = false ∧
    (handleCompletion sampleForm failPage).processing = false ∧
    (handleCompletion sampleForm failPage).fields = sampleForm.fields ∧
    (handleCompletion sampleForm failPage).initial = sampleForm.initial ∧
    (handleCompletion sampleForm failPage).isDirty = sampleForm.isDirty :=
  C4_fail_preserves_fields sampleForm failPage [("email", ["Invalid"])]
    (by decide) (by decide)

/-- C9: a successful completion appends exactly one deferred step, with
delay 2000 ms, to the schedule, and firing a scheduled step sets
`recentlySuccessful` back to false without any further calls on the
form. -/
theorem C9_schedules_single_timer (f : Form) (page : Page)
    (herr : hasErrors { f with processing := false } page = false) :
    (handleCompletion f page).timers = f.timers ++ [2000] ∧
    ∀ g : Form, (fireScheduled g).recentlySuccessful = false := by
  refine ⟨?_, fun g => rfl⟩
  simp only [handleCompletion, herr, Bool.false_eq_true, if_false,
    onSuccessHook]
  by_cases h1 : f.options.resetOnSuccess
  · simp [h1, reset]
  · by_cases h2 : f.options.setInitialOnSuccess
    · simp [h1, h2, setInitialValues]
    · simp [h1, h2]

/-- C9 witness: the concrete successful completion schedules one 2000 ms
step, whose firing clears `recentlySuccessful`. -/
theorem C9_schedules_single_timer_witness :
    (handleCompletion sampleForm missingBagPage).timers =
      sampleForm.timers ++ [2000] ∧
    (fireScheduled
      (handleCompletion sampleForm missingBagPage)).recentlySuccessful =
      false := by
  obtain ⟨h1, h2⟩ :=
    C9_schedules_single_timer sampleForm missingBagPage (by decide)
  exact ⟨h1, h2 _⟩

/-- C7 counterexample: the claim "the marker field carries the configured
error-bag name" fails on a form legitimately constructed with a data field
named `_error_bag` (the name passes the reserved-name guard): `data()`
then carries the field's current value in the marker slot, not the
configured bag name. -/
theorem C7_counterexample :
    (createForm [("_error_bag", Value.str "x")] noOptions).map
        (fun F => getKey (dataOf F) "_error_bag") =
      .ok (some (Value.str "x")) ∧
    (createForm [("_error_bag", Value.str "x")] noOptions).map
        (fun F => F.options.bag) = .ok "default" := by
  exact ⟨rfl, rfl⟩

/-- C7 (amended): `data()` has exactly the marker key `_error_bag` plus
`initial`'s field names as keys; every initial-declared field carries its
current value; the marker carries the configured bag name unless
`initial` itself declares a field named `_error_bag`, whose current value
then overrides the marker. -/
theorem C7_data_keys_and_values (f : Form) (k : String) :
    getKey (dataOf f) k =
      (if containsKey f.initial k then some (getProp f.fields k)
       else if k = "_error_bag" then some (Value.str f.options.bag)
       else none) ∧
    containsKey (dataOf f) k =
      (k == "_error_bag" || containsKey f.initial k) := by
  have hmain : getKey (dataOf f) k =
      if k ∈ f.initial.map Prod.fst then some (getProp f.fields k)
      else getKey [("_error_bag", Value.str f.options.bag)] k := by
    unfold dataOf
    exact getKey_dataOf_fold f.fields f.initial _ k
  have hfirst : getKey (dataOf f) k =
      if containsKey f.initial k then some (getProp f.fields k)
      else if k = "_error_bag" then some (Value.str f.options.bag)
      else none := by
    rw [hmain]
    by_cases hm : k ∈ f.initial.map Prod.fst
    · rw [if_pos hm, if_pos ((containsKey_iff_mem _ _).mpr hm)]
    · rw [if_neg hm,
        if_neg (fun hc => hm ((containsKey_iff_mem _ _).mp hc))]
      by_cases hk : k = "_error_bag"
      · subst hk
        simp [getKey]
      · have hk2 : ¬ ("_error_bag" = k) := fun hh => hk hh.symm
        simp only [getKey, if_neg hk2, if_neg hk]
  refine ⟨hfirst, ?_⟩
  have hck : containsKey (dataOf f) k = (getKey (dataOf f) k).isSome := rfl
  rw [hck, hfirst]
  by_cases hc : containsKey f.initial k
  · rw [if_pos hc, hc]
    simp
  · rw [if_neg hc]
    have hcb : containsKey f.initial k = false := by simpa using hc
    rw [hcb, Bool.or_false]
    by_cases hk : k = "_error_bag"
    · subst hk
      simp
    · rw [if_neg hk]
      have hbf : (k == "_error_bag") = false := by simpa using hk
      rw [hbf]
      rfl

/-- A form with one declared field `email`, default options. -/
def c8Form : Form :=
  { fields := [("email", .str "e")], initial := [("email", .str "e")],
    processing := false, successful := false, recentlySuccessful := false,
    isDirty := false,
    options := { bag := "default", resetOnSuccess := true,
                 setInitialOnSuccess := false },
    timers := [] }

/-- A page whose `default` bag maps `email` to the non-empty message list
`["", "Invalid"]` whose first message is the empty string. -/
def c8Page : Page :=
  { errorBags := [("default", [("email", ["", "Invalid"])])] }

/-- C8 counterexample: the configured bag holds the non-empty message
list `["", "Invalid"]` for `email`, so the claim requires
`errors("email")` to return that full list, but the code returns `[]`:
`error("email")` yields the falsy empty string, failing the truthiness
test inside `errors`. -/
theorem C8_counterexample :
    c8Form.options.bag = "default" ∧
    lookupBag c8Page "default" = some [("email", ["", "Invalid"])] ∧
    errorsField c8Form c8Page "email" = [] := by
  exact ⟨rfl, rfl, rfl⟩

/-- C8 (amended): `errors(field)` returns the field's full message list
whenever the configured bag holds a non-empty list for the field whose
first message is a non-empty string, and an empty list otherwise — in
particular it returns `[]` when the first message is the empty string;
`errors()` with no field flattens the configured bag's message lists in
bag iteration order, each field's messages in original order. -/
theorem C8_errors_characterization (f : Form) (page : Page)
    (field : String) :
    errorsField f page field =
      (match lookupBag page f.options.bag with
       | some bag =>
           (match lookupField bag field with
            | some (m :: rest) => if m = "" then [] else m :: rest
            | some [] => []
            | none => [])
       | none => []) ∧
    errorsAll f page =
      ((lookupBag page f.options.bag).getD []).foldl
        (fun a kv => a ++ kv.2) [] := by
  cases hb : lookupBag page f.options.bag with
  | none =>
    have herr : hasErrors f page = false := by
      unfold hasErrors
      rw [hb]
    constructor
    · simp only [errorsField, errorAt, herr, Bool.false_eq_true, if_false,
        if_true]
    · simp only [errorsAll, herr, Bool.false_eq_true, if_false, hb,
        Option.getD_none, List.foldl_nil]
  | some bag =>
    cases bag with
    | nil =>
      have herr : hasErrors f page = false := by
        unfold hasErrors
        rw [hb]
        rfl
      constructor
      · simp only [errorsField, errorAt, herr, Bool.false_eq_true,
          if_false, if_true, lookupField, List.find?_nil]
      · simp only [errorsAll, herr, Bool.false_eq_true, if_false, hb,
          Option.getD_some, List.foldl_nil]
    | cons b rest =>
      have herr : hasErrors f page = true := by
        unfold hasErrors
        rw [hb]
        simp
      constructor
      · cases hf : lookupField (b :: rest) field with
        | none => simp [errorsField, errorAt, herr, hb, hf]
        | some msgs =>
          cases msgs with
          | nil => simp [errorsField, errorAt, herr, hb, hf]
          | cons m ms =>
            by_cases hm : m = ""
            · subst hm
              simp [errorsField, errorAt, herr, hb, hf]
            · simp [errorsField, errorAt, herr, hb, hf, hm]
      · simp [errorsAll, herr, hb]
